import Mathlib

/-!
Verification of the rule-based course-search intent parser
(coursesearch.py): text normalization, keyword extraction,
level/modality classification, extras detection, query-variant
generation and deep-link construction.

Strings are modelled as lists of characters (Str); Python's
mutable dicts and lists are modelled as association lists and, for
the override-merge block, through an explicit reference heap.
-/

set_option maxHeartbeats 1000000

abbrev Str := List Char

/-- ASCII whitespace recognized by Python's default split / strip / regex \s. -/
def is_py_space (c : Char) : Bool :=
  c == ' ' || c == '\t' || c == '\n' || c == '\r' || c == (Char.ofNat 11) || c == (Char.ofNat 12)

/-- Drop trailing whitespace (the right half of Python str.strip). -/
def drop_trailing (l : Str) : Str :=
  (l.reverse.dropWhile is_py_space).reverse

/-- Python str.strip(): remove leading and trailing whitespace. -/
def py_strip (l : Str) : Str :=
  drop_trailing (l.dropWhile is_py_space)

/-- Worker for collapse_ws; the flag records whether the previous
character belonged to a whitespace run already emitted as one space. -/
def collapse_ws_go : Str → Bool → Str
  | [], _ => []
  | c :: cs, inRun =>
    if is_py_space c then
      if inRun then collapse_ws_go cs true else ' ' :: collapse_ws_go cs true
    else c :: collapse_ws_go cs false

/-- Replace every maximal run of whitespace by a single space
(the substitution re.sub of the pattern of one-or-more spaces). -/
def collapse_ws (s : Str) : Str := collapse_ws_go s false

/-- normalize_text from the source: collapse whitespace runs then strip. -/
def normalize_text (s : Str) : Str :=
  py_strip (collapse_ws s)

/-- Character class of the token regex in extract_keywords:
letters, digits, hyphen, plus, slash, hash. -/
def is_word_char (c : Char) : Bool :=
  (('A' ≤ c && c ≤ 'Z') || ('a' ≤ c && c ≤ 'z') || ('0' ≤ c && c ≤ '9')
    || c == '-' || c == '+' || c == '/' || c == '#')

/-- Worker for tokenize; acc holds the characters of the current
token in reverse. -/
def tokenize_go : Str → Str → List Str
  | [], acc => if acc = [] then [] else [acc.reverse]
  | c :: cs, acc =>
    if is_word_char c then tokenize_go cs (c :: acc)
    else if acc = [] then tokenize_go cs []
    else acc.reverse :: tokenize_go cs []

/-- re.findall of the token regex: the maximal runs of word characters. -/
def tokenize (s : Str) : List Str := tokenize_go s []

/-- The fixed STOPWORDS constant of the source, in written order. -/
def STOPWORDS : List Str :=
  ["a", "an", "the", "to", "for", "of", "on", "in", "with", "and", "or", "vs",
   "from", "learn", "course", "tutorial", "training", "class",
   "i", "me", "my", "we", "our", "us", "you", "your", "they", "their", "them",
   "it", "its", "is", "are", "was", "were", "be", "been", "being",
   "about", "into", "over", "under", "by", "at", "as", "how", "what", "which",
   "who", "where", "when", "why",
   "this", "that", "those", "these", "want", "need", "looking", "seeking",
   "search", "find", "best", "top",
   "weekend", "weekday", "evening", "morning", "hands-on", "hands", "free",
   "cheap", "certificate"].map String.toList

/-- Python str.isdigit for ASCII: nonempty and all characters are digits. -/
def py_isdigit (t : Str) : Bool :=
  !t.isEmpty && t.all Char.isDigit

/-- The selection loop of extract_keywords: skip stopwords, digit-only
tokens and tokens of length at most 2; append first occurrences; stop
once top_k tokens are picked (the size check runs only on tokens that
were not skipped, mirroring the continue statements). -/
def pick_tokens : List Str → List Str → Nat → List Str
  | [], picked, _ => picked
  | t :: ts, picked, k =>
    if t ∈ STOPWORDS then pick_tokens ts picked k
    else if py_isdigit t then pick_tokens ts picked k
    else if t.length ≤ 2 then pick_tokens ts picked k
    else if t ∈ picked then
      (if k ≤ picked.length then picked else pick_tokens ts picked k)
    else
      (if k ≤ (picked ++ [t]).length then picked ++ [t]
       else pick_tokens ts (picked ++ [t]) k)

/-- The fixed fallback vocabulary returned when no token survives. -/
def fallback_keywords : List Str :=
  ["data", "analytics", "python", "ai"].map String.toList

/-- extract_keywords from the source. -/
def extract_keywords (text : Str) (top_k : Nat) : List Str :=
  if pick_tokens (tokenize (text.map Char.toLower)) [] top_k = []
  then fallback_keywords
  else pick_tokens (tokenize (text.map Char.toLower)) [] top_k

/-- Does the first list start with the second one? -/
def starts_with : Str → Str → Bool
  | _, [] => true
  | [], _ :: _ => false
  | c :: cs, n :: ns => c == n && starts_with cs ns

/-- Python substring membership (the in operator on strings):
needle occurs contiguously in hay. -/
def contains_sub (hay needle : Str) : Bool :=
  if starts_with hay needle then true
  else
    match hay with
    | [] => false
    | _ :: t => contains_sub t needle

/-- The ordered LEVEL_WORDS table of the source. -/
def LEVEL_WORDS : List (Str × List Str) :=
  [("beginner".toList, ["beginner", "intro", "introduction", "foundations",
      "starter", "basic"].map String.toList),
   ("intermediate".toList, ["intermediate", "mid", "some experience"].map String.toList),
   ("advanced".toList, ["advanced", "expert", "pro", "senior", "specialist"].map String.toList)]

/-- The ordered MODALITY_WORDS table of the source. -/
def MODALITY_WORDS : List (Str × List Str) :=
  [("online_course".toList, ["online", "self-paced", "recorded", "asynchronous",
      "course"].map String.toList),
   ("online_training".toList, ["live", "instructor-led", "cohort", "bootcamp",
      "workshop", "training"].map String.toList),
   ("onsite_training".toList, ["onsite", "on-site", "in-person", "at office",
      "physical", "classroom"].map String.toList)]

/-- The shared loop body of extract_level and extract_modality: return
the first category, in table order, one of whose markers occurs in tl. -/
def find_category : List (Str × List Str) → Str → Option Str
  | [], _ => none
  | (cat, ws) :: rest, tl =>
    if ws.any (fun w => contains_sub tl w) then some cat else find_category rest tl

/-- extract_level from the source. -/
def extract_level (text : Str) : Option Str :=
  find_category LEVEL_WORDS (text.map Char.toLower)

/-- extract_modality from the source. -/
def extract_modality (text : Str) : Option Str :=
  find_category MODALITY_WORDS (text.map Char.toLower)

/-- Join a list of strings with single spaces (str.join with a space). -/
def join_space : List Str → Str
  | [] => []
  | [x] => x
  | x :: y :: ys => x ++ ' ' :: join_space (y :: ys)

/-- Worker for py_title; the flag records whether the previous
character was alphabetic (cased). -/
def title_go : Str → Bool → Str
  | [], _ => []
  | c :: cs, prevAlpha =>
    (if c.isAlpha then (if prevAlpha then c.toLower else c.toUpper) else c)
      :: title_go cs c.isAlpha

/-- Python str.title for ASCII: uppercase every letter that follows a
non-letter, lowercase every other letter. -/
def py_title (s : Str) : Str := title_go s false

/-- guess_topic_and_skills from the source: first two keywords joined
and title-cased as the topic, the slice from position 2 to 6 as skills. -/
def guess_topic_and_skills (keywords : List Str) : Str × List Str :=
  if keywords = [] then ([], [])
  else (py_title (join_space (keywords.take 2)), (keywords.drop 2).take 4)

/-- The parsed-intent record of the source (dataclass ParsedIntent),
with the extras dict as an association list in insertion order. -/
structure ParsedIntent where
  topic : Str
  subtopics : List Str
  skills : List Str
  level : Option Str
  modality : Option Str
  extras : List (Str × Str)
  keywords : List Str
deriving DecidableEq

/-- Python dict assignment: replace in place when the key exists,
otherwise append the pair. -/
def py_dict_set (d : List (Str × Str)) (k v : Str) : List (Str × Str) :=
  if d.any (fun q => q.1 == k) then d.map (fun q => if q.1 == k then (k, v) else q)
  else d ++ [(k, v)]

/-- Python dict lookup returning the value for the first (unique) entry
with the given key. -/
def py_dict_find (d : List (Str × Str)) (k : Str) : Option Str :=
  (d.find? (fun q => q.1 == k)).map Prod.snd

/-- parse_query_noai from the source. -/
def parse_query_noai (user_text : Str) : ParsedIntent :=
  let ut := normalize_text user_text
  let kws := extract_keywords ut 10
  let ts := guess_topic_and_skills kws
  let level := extract_level ut
  let modality := extract_modality ut
  let tl := ut.map Char.toLower
  let extras : List (Str × Str) :=
    if contains_sub tl ("certificate".toList)
    then py_dict_set [] ("certificate".toList) ("required".toList) else []
  let extras :=
    if (["short", "crash", "weekend"].map String.toList).any (fun w => contains_sub tl w)
    then py_dict_set extras ("duration".toList) ("short".toList) else extras
  let extras :=
    if (["free", "no cost", "open"].map String.toList).any (fun w => contains_sub tl w)
    then py_dict_set extras ("price".toList) ("free_preferred".toList) else extras
  { topic := ts.1, subtopics := [], skills := ts.2, level := level,
    modality := modality, extras := extras, keywords := kws }

/-- qjoin from the source: drop empty parts, join with single spaces, strip. -/
def qjoin (parts : List Str) : Str :=
  py_strip (join_space (parts.filter (fun p => p ≠ [])))

/-- The characters urllib.parse.quote leaves unescaped
(letters, digits, underscore, dot, hyphen, tilde). -/
def url_safe (c : Char) : Bool :=
  c.isAlpha || c.isDigit || c == '_' || c == '.' || c == '-' || c == '~'

/-- The sixteen uppercase hexadecimal digit characters. -/
def hex_digits : List Char :=
  ['0', '1', '2', '3', '4', '5', '6', '7', '8', '9', 'A', 'B', 'C', 'D', 'E', 'F']

/-- The n-th uppercase hexadecimal digit. -/
def hex_digit (n : Nat) : Char := hex_digits.getD n '0'

/-- Percent-encoding of one byte. -/
def percent_byte (b : Nat) : Str :=
  ['%', hex_digit (b / 16), hex_digit (b % 16)]

/-- UTF-8 byte sequence of a code point. -/
def utf8_bytes (n : Nat) : List Nat :=
  if n < 128 then [n]
  else if n < 2048 then [192 + n / 64, 128 + n % 64]
  else if n < 65536 then [224 + n / 4096, 128 + n / 64 % 64, 128 + n % 64]
  else [240 + n / 262144, 128 + n / 4096 % 64, 128 + n / 64 % 64, 128 + n % 64]

/-- urllib.parse.quote_plus on one character: safe characters pass
through, a space becomes a plus, everything else is percent-encoded
byte by byte. -/
def quote_plus_char (c : Char) : Str :=
  if url_safe c then [c]
  else if c = ' ' then ['+']
  else ((utf8_bytes c.toNat).map percent_byte).flatten

/-- urllib.parse.quote_plus from the source's search_url. -/
def quote_plus (q : Str) : Str :=
  (q.map quote_plus_char).flatten

/-- search_url from the source. -/
def search_url (platform : Str) (query : Str) : Str :=
  let q := quote_plus query
  if platform = "Coursera".toList then ("https://www.coursera.org/search?query=".toList) ++ q
  else if platform = "Udemy".toList then ("https://www.udemy.com/courses/search/?q=".toList) ++ q
  else if platform = "Simpliv".toList then ("https://www.simplivlearning.com/search?query=".toList) ++ q
  else if platform = "Educative".toList then ("https://www.educative.io/search?query=".toList) ++ q
  else ("#".toList)

/-- The normalization applied before deduplication of query variants:
strip then lowercase. -/
def norm_key (v : Str) : Str :=
  (py_strip v).map Char.toLower

/-- The working keyword list of make_query_variants: the intent's
keywords, or a fresh extraction from the raw text when they are
empty (the Python or). -/
def variant_base_kw (pi : ParsedIntent) (raw_text : Str) : List Str :=
  if pi.keywords = [] then extract_keywords raw_text 8 else pi.keywords

/-- The candidate list of make_query_variants, in generation order:
topic with skills (when the topic is nonempty), the keyword join, the
keyword join with the level appended (when a level is present), and
the stripped raw text. -/
def variant_candidates (pi : ParsedIntent) (raw_text : Str) : List Str :=
  (if pi.topic ≠ [] then [qjoin (pi.topic :: pi.skills)] else []) ++
  [qjoin (variant_base_kw pi raw_text)] ++
  (match pi.level with
   | some lvl => if lvl ≠ [] then [qjoin (variant_base_kw pi raw_text ++ [lvl])] else []
   | none => []) ++
  [py_strip raw_text]

/-- The deduplication loop of make_query_variants: keep a candidate
when its normalized form is nonempty and not seen yet. -/
def dedup_loop : List Str → List Str → List Str
  | [], out => out
  | v :: vs, out =>
    if norm_key v ≠ [] ∧ norm_key v ∉ out.map norm_key
    then dedup_loop vs (out ++ [v])
    else dedup_loop vs out

/-- make_query_variants from the source. -/
def make_query_variants (pi : ParsedIntent) (raw_text : Str) : List Str :=
  (dedup_loop (variant_candidates pi raw_text) []).take 4

/-!
The override-merge block at the top level of the script works on
Python's mutable dicts and lists.  To state that it never mutates the
auto-detected ParsedIntent, dict- and list-valued fields are modelled
as references into an explicit heap, and each Python statement of the
block becomes a heap operation: dict(...) and [:] allocate fresh
cells, item assignment and append/extend write through a reference.
-/

/-- A heap of dict cells and of string-list cells; references are
indices. -/
structure Heap where
  dicts : List (List (Str × Str))
  strlists : List (List Str)
deriving DecidableEq

def Heap.getDict (h : Heap) (r : Nat) : List (Str × Str) := h.dicts.getD r []

def Heap.getList (h : Heap) (r : Nat) : List Str := h.strlists.getD r []

def Heap.setDict (h : Heap) (r : Nat) (d : List (Str × Str)) : Heap :=
  { h with dicts := h.dicts.set r d }

def Heap.setList (h : Heap) (r : Nat) (l : List Str) : Heap :=
  { h with strlists := h.strlists.set r l }

def Heap.allocDict (h : Heap) (d : List (Str × Str)) : Heap × Nat :=
  ({ h with dicts := h.dicts ++ [d] }, h.dicts.length)

def Heap.allocList (h : Heap) (l : List Str) : Heap × Nat :=
  ({ h with strlists := h.strlists ++ [l] }, h.strlists.length)

/-- ParsedIntent with its mutable fields (subtopics, skills, extras,
keywords) held by reference, as the running script does. -/
structure ParsedIntentRef where
  topic : Str
  subtopicsRef : Nat
  skillsRef : Nat
  level : Option Str
  modality : Option Str
  extrasRef : Nat
  keywordsRef : Nat
deriving DecidableEq

/-- The sidebar state read by the block: mode, level preference and
the three toggles. -/
structure Prefs where
  training_mode : Str
  level_pref : Str
  must_have_cert : Bool
  short_format : Bool
  free_only : Bool
deriving DecidableEq

/-- The mode_to_modality table of the source. -/
def mode_to_modality : List (Str × Str) :=
  [(("Online Courses".toList), ("online_course".toList)),
   (("Online Trainings (Simpliv)".toList), ("online_training".toList)),
   (("Onsite Trainings (coming soon)".toList), ("onsite_training".toList)),
   (("Mixed / Any".toList), ("any".toList))]

/-- dict.get with a default value. -/
def dict_get_default (d : List (Str × Str)) (k dflt : Str) : Str :=
  ((d.find? (fun q => q.1 == k)).map Prod.snd).getD dflt

/-- Python truth test on a dict key: "k in d". -/
def py_dict_has (d : List (Str × Str)) (k : Str) : Bool :=
  d.any (fun q => q.1 == k)

/-- The four conditional extras assignments of the block (level
preference, certificate, duration, price), writing through the
extras reference. -/
def stage_extras (h : Heap) (r : Nat) (p : Prefs) : Heap :=
  let h := if p.level_pref ≠ "Any".toList
    then h.setDict r (py_dict_set (h.getDict r) ("level".toList) (p.level_pref.map Char.toLower))
    else h
  let h := if p.must_have_cert
    then h.setDict r (py_dict_set (h.getDict r) ("certificate".toList) ("required".toList))
    else h
  let h := if p.short_format
    then h.setDict r (py_dict_set (h.getDict r) ("duration".toList) ("short".toList))
    else h
  if p.free_only
    then h.setDict r (py_dict_set (h.getDict r) ("price".toList) ("free_preferred".toList))
    else h

/-- The keyword nudging of the block: append the effective level when
missing, then extend with the modality hint words, writing through
the keyword-list reference. -/
def stage_kw (h : Heap) (kwRef : Nat) (extrasRef : Nat) (modality : Str) : Heap :=
  let h :=
    if py_dict_has (h.getDict extrasRef) ("level".toList)
        ∧ dict_get_default (h.getDict extrasRef) ("level".toList) [] ∉ h.getList kwRef
    then h.setList kwRef
      (h.getList kwRef ++ [dict_get_default (h.getDict extrasRef) ("level".toList) []])
    else h
  if modality ≠ [] ∧ modality ≠ "any".toList then
    if modality = "online_training".toList then
      h.setList kwRef (h.getList kwRef ++ ["live", "instructor-led", "workshop"].map String.toList)
    else if modality = "online_course".toList then
      h.setList kwRef (h.getList kwRef ++ ["online", "self-paced"].map String.toList)
    else if modality = "onsite_training".toList then
      h.setList kwRef (h.getList kwRef ++ ["onsite", "in-person"].map String.toList)
    else h
  else h

/-- The modality resolved by the block: the auto-detected one when
truthy, otherwise the mode_to_modality entry for the sidebar mode
(default any). -/
def merge_modality (parsed : ParsedIntentRef) (p : Prefs) : Str :=
  match parsed.modality with
  | some m =>
    if m = [] then dict_get_default mode_to_modality p.training_mode ("any".toList) else m
  | none => dict_get_default mode_to_modality p.training_mode ("any".toList)

/-- The heap after the extras statements of the block: allocate the
copy dict(parsed.extras) - its reference is the old dict count - and
run the four conditional assignments on it. -/
def merge_after_extras (h0 : Heap) (parsed : ParsedIntentRef) (p : Prefs) : Heap :=
  stage_extras (h0.allocDict (h0.getDict parsed.extrasRef)).1 h0.dicts.length p

/-- The heap after the keyword statements of the block: allocate the
copy parsed.keywords[:] and run the conditional append and the
modality extend on it. -/
def merge_after_kw (h0 : Heap) (parsed : ParsedIntentRef) (p : Prefs) : Heap :=
  stage_kw
    ((merge_after_extras h0 parsed p).allocList
      ((merge_after_extras h0 parsed p).getList parsed.keywordsRef)).1
    (merge_after_extras h0 parsed p).strlists.length
    h0.dicts.length (merge_modality parsed p)

/-- The final heap of the block: the previous one plus the fresh empty
subtopics list of the effective intent. -/
def merge_final_heap (h0 : Heap) (parsed : ParsedIntentRef) (p : Prefs) : Heap :=
  ((merge_after_kw h0 parsed p).allocList []).1

/-- The override-merge block of the script (the body of the submit
branch up to the variant computation): copy the extras dict, apply the
sidebar overrides, resolve the modality, copy and nudge the keyword
list, build the effective ParsedIntent and run the variant generator
on it.  Returns the final heap, the effective intent record and the
variants. -/
def apply_sidebar_prefs (h0 : Heap) (parsed : ParsedIntentRef) (p : Prefs)
    (user_text : Str) : Heap × ParsedIntentRef × List Str :=
  (merge_final_heap h0 parsed p,
   { topic := parsed.topic,
     subtopicsRef := (merge_after_kw h0 parsed p).strlists.length,
     skillsRef := parsed.skillsRef,
     level := parsed.level, modality := some (merge_modality parsed p),
     extrasRef := h0.dicts.length,
     keywordsRef := (merge_after_extras h0 parsed p).strlists.length },
   make_query_variants
     { topic := parsed.topic,
       subtopics := (merge_final_heap h0 parsed p).getList
         (merge_after_kw h0 parsed p).strlists.length,
       skills := (merge_final_heap h0 parsed p).getList parsed.skillsRef,
       level := parsed.level, modality := some (merge_modality parsed p),
       extras := (merge_final_heap h0 parsed p).getDict h0.dicts.length,
       keywords := (merge_final_heap h0 parsed p).getList
         (merge_after_extras h0 parsed p).strlists.length } user_text)


/-! ## Helper lemmas -/

theorem title_go_append_space (xs ys : Str) (b : Bool) :
    title_go (xs ++ ' ' :: ys) b = title_go xs b ++ ' ' :: title_go ys false := by
  induction xs generalizing b with
  | nil =>
    have hsp : (' ' : Char).isAlpha = false := by decide
    simp [title_go, hsp]
  | cons c cs ih =>
    simp [title_go, ih]

theorem find_category_eq_find (cats : List (Str × List Str)) (tl : Str) :
    find_category cats tl =
      (cats.find? (fun q => q.2.any (fun w => contains_sub tl w))).map Prod.fst := by
  induction cats with
  | nil => rfl
  | cons q rest ih =>
    obtain ⟨cat, ws⟩ := q
    by_cases hany : ws.any (fun w => contains_sub tl w) = true
    · rw [find_category, if_pos hany]
      simp [hany]
    · rw [find_category, if_neg hany, ih]
      simp only [Bool.not_eq_true] at hany
      simp [hany]

theorem find_category_first (pre : List (Str × List Str)) (cat : Str)
    (ws : List Str) (rest : List (Str × List Str)) (tl : Str)
    (hmiss : ∀ q ∈ pre, ∀ w ∈ q.2, contains_sub tl w = false)
    (hhit : ∃ w ∈ ws, contains_sub tl w = true) :
    find_category (pre ++ (cat, ws) :: rest) tl = some cat := by
  induction pre with
  | nil =>
    obtain ⟨w, hw, hc⟩ := hhit
    rw [List.nil_append, find_category, if_pos (List.any_eq_true.mpr ⟨w, hw, hc⟩)]
  | cons q pre ih =>
    obtain ⟨c0, ws0⟩ := q
    have hq : ws0.any (fun w => contains_sub tl w) = false := by
      rw [List.any_eq_false]
      intro w hw
      simp [hmiss (c0, ws0) (List.mem_cons_self _ _) w hw]
    rw [List.cons_append, find_category, if_neg (by simp [hq])]
    exact ih (fun q hq w hw => hmiss q (List.mem_cons_of_mem _ hq) w hw)

theorem find_category_none (cats : List (Str × List Str)) (tl : Str)
    (h : ∀ q ∈ cats, ∀ w ∈ q.2, contains_sub tl w = false) :
    find_category cats tl = none := by
  rw [find_category_eq_find]
  rw [List.find?_eq_none.mpr]
  · rfl
  · intro q hq
    simp only [Bool.not_eq_true, List.any_eq_false]
    intro w hw
    simp [h q hq w hw]

/-! ## C8: topic and skills derivation -/

/-- C8: for every keyword list, the derived topic is the first up to
two keywords title-cased and joined by a space (empty for an empty
list), and the derived skills are exactly the slice of the keywords
from position 2 to position 6. -/
theorem C8_topic_skills (kws : List Str) :
    guess_topic_and_skills kws =
      (join_space ((kws.take 2).map py_title), (kws.drop 2).take 4) := by
  match kws with
  | [] => rfl
  | [a] => rfl
  | a :: b :: t =>
    show (py_title (join_space [a, b]), _) = (join_space [py_title a, py_title b], _)
    have hj : join_space [a, b] = a ++ ' ' :: b := rfl
    have hj2 : join_space [py_title a, py_title b] = py_title a ++ ' ' :: py_title b := rfl
    rw [hj, hj2]
    show (title_go (a ++ ' ' :: b) false, _) = _
    rw [title_go_append_space]
    rfl

/-! ## C10: case invariance of keyword extraction -/

/-- C10: extract_keywords depends on the text only through its
lower-cased form, hence any two case-variants of the same text give
the same keyword list. -/
theorem C10_case_invariant (t1 t2 : Str) (k : Nat)
    (h : t1.map Char.toLower = t2.map Char.toLower) :
    extract_keywords t1 k = extract_keywords t2 k := by
  unfold extract_keywords
  rw [h]

/-- Witness for C10 at a concrete upper-cased variant. -/
theorem C10_case_invariant_w :
    extract_keywords ("PYTHON For FINANCE 101".toList) 8 =
      extract_keywords ("python for finance 101".toList) 8 :=
  C10_case_invariant _ _ 8 (by decide)

/-! ## C4: first-match classification of level and modality -/

/-- C4: extract_level and extract_modality lower-case the text and
return the first category, in the declared table order, one of whose
marker phrases occurs as a substring, and none when no marker occurs;
in particular the two example texts classify as beginner and as
online_training. -/
theorem C4_first_match :
    (∀ text, extract_level text =
      (LEVEL_WORDS.find? (fun q => q.2.any
        (fun w => contains_sub (text.map Char.toLower) w))).map Prod.fst) ∧
    (∀ text, extract_modality text =
      (MODALITY_WORDS.find? (fun q => q.2.any
        (fun w => contains_sub (text.map Char.toLower) w))).map Prod.fst) ∧
    (∀ text pre cat ws rest, LEVEL_WORDS = pre ++ (cat, ws) :: rest →
      (∀ q ∈ pre, ∀ w ∈ q.2, contains_sub (text.map Char.toLower) w = false) →
      (∃ w ∈ ws, contains_sub (text.map Char.toLower) w = true) →
      extract_level text = some cat) ∧
    (∀ text pre cat ws rest, MODALITY_WORDS = pre ++ (cat, ws) :: rest →
      (∀ q ∈ pre, ∀ w ∈ q.2, contains_sub (text.map Char.toLower) w = false) →
      (∃ w ∈ ws, contains_sub (text.map Char.toLower) w = true) →
      extract_modality text = some cat) ∧
    (∀ text, (∀ q ∈ LEVEL_WORDS, ∀ w ∈ q.2,
        contains_sub (text.map Char.toLower) w = false) →
      extract_level text = none) ∧
    (∀ text, (∀ q ∈ MODALITY_WORDS, ∀ w ∈ q.2,
        contains_sub (text.map Char.toLower) w = false) →
      extract_modality text = none) ∧
    extract_level ("Intro to machine learning for beginners".toList) =
      some ("beginner".toList) ∧
    extract_modality ("live instructor-led cohort bootcamp".toList) =
      some ("online_training".toList) := by
  refine ⟨?_, ?_, ?_, ?_, ?_, ?_, ?_, ?_⟩
  · intro text
    exact find_category_eq_find LEVEL_WORDS (text.map Char.toLower)
  · intro text
    exact find_category_eq_find MODALITY_WORDS (text.map Char.toLower)
  · intro text pre cat ws rest htab hmiss hhit
    unfold extract_level
    rw [htab]
    exact find_category_first pre cat ws rest _ hmiss hhit
  · intro text pre cat ws rest htab hmiss hhit
    unfold extract_modality
    rw [htab]
    exact find_category_first pre cat ws rest _ hmiss hhit
  · intro text h
    exact find_category_none LEVEL_WORDS _ h
  · intro text h
    exact find_category_none MODALITY_WORDS _ h
  · decide
  · decide

/-- Witness for C4: the hypotheses of the first-match and no-match
conjuncts discharged at concrete texts. -/
theorem C4_first_match_w :
    extract_level ("mid-level python".toList) = some ("intermediate".toList) ∧
    extract_modality ("onsite class in lahore".toList) = some ("onsite_training".toList) ∧
    extract_level ("zzz".toList) = none ∧
    extract_modality ("zzz".toList) = none := by
  refine ⟨?_, ?_, ?_, ?_⟩
  · exact C4_first_match.2.2.1 _ [("beginner".toList,
      ["beginner", "intro", "introduction", "foundations", "starter",
       "basic"].map String.toList)]
      ("intermediate".toList) (["intermediate", "mid", "some experience"].map String.toList)
      [("advanced".toList, ["advanced", "expert", "pro", "senior",
        "specialist"].map String.toList)]
      (by decide) (by decide) ⟨"mid".toList, by decide, by decide⟩
  · exact C4_first_match.2.2.2.1 _
      [("online_course".toList, ["online", "self-paced", "recorded", "asynchronous",
         "course"].map String.toList),
       ("online_training".toList, ["live", "instructor-led", "cohort", "bootcamp",
         "workshop", "training"].map String.toList)]
      ("onsite_training".toList)
      (["onsite", "on-site", "in-person", "at office", "physical",
        "classroom"].map String.toList) []
      (by decide) (by decide) ⟨"onsite".toList, by decide, by decide⟩
  · exact C4_first_match.2.2.2.2.1 _ (by decide)
  · exact C4_first_match.2.2.2.2.2.1 _ (by decide)

/-! ## C3: deep-link construction -/

theorem hex_digit_not_space_amp (n : Nat) :
    hex_digit n ≠ ' ' ∧ hex_digit n ≠ '&' := by
  have hall : ∀ c ∈ hex_digits, c ≠ ' ' ∧ c ≠ '&' := by decide
  have hmem : hex_digit n ∈ hex_digits ∨ hex_digit n = '0' := by
    unfold hex_digit
    rcases Nat.lt_or_ge n hex_digits.length with h | h
    · exact Or.inl (by rw [List.getD_eq_getElem _ _ h]; exact List.getElem_mem h)
    · exact Or.inr (List.getD_eq_default _ _ h)
  rcases hmem with h | h
  · exact hall _ h
  · rw [h]
    decide

theorem quote_plus_char_clean (c x : Char) (hx : x ∈ quote_plus_char c) :
    x ≠ ' ' ∧ x ≠ '&' := by
  unfold quote_plus_char at hx
  by_cases hs : url_safe c = true
  · rw [if_pos hs] at hx
    rw [List.mem_singleton] at hx
    subst hx
    constructor
    · intro he
      rw [he] at hs
      exact absurd hs (by decide)
    · intro he
      rw [he] at hs
      exact absurd hs (by decide)
  · rw [if_neg hs] at hx
    by_cases hc : c = ' '
    · rw [if_pos hc] at hx
      rw [List.mem_singleton] at hx
      subst hx
      decide
    · rw [if_neg hc] at hx
      rw [List.mem_flatten] at hx
      obtain ⟨l, hl, hxl⟩ := hx
      rw [List.mem_map] at hl
      obtain ⟨b, _, rfl⟩ := hl
      unfold percent_byte at hxl
      simp only [List.mem_cons, List.not_mem_nil, or_false] at hxl
      rcases hxl with rfl | rfl | rfl
      · decide
      · exact hex_digit_not_space_amp _
      · exact hex_digit_not_space_amp _

theorem quote_plus_clean (q : Str) (x : Char) (hx : x ∈ quote_plus q) :
    x ≠ ' ' ∧ x ≠ '&' := by
  unfold quote_plus at hx
  rw [List.mem_flatten] at hx
  obtain ⟨l, hl, hxl⟩ := hx
  rw [List.mem_map] at hl
  obtain ⟨c, _, rfl⟩ := hl
  exact quote_plus_char_clean c x hxl

/-- C3: for each of the four known platforms, search_url returns the
platform's fixed endpoint followed by the plus/percent-encoded query;
the encoded query never contains a literal space or ampersand; any
other platform yields the sentinel; and the Udemy example equals the
Udemy endpoint followed by the encoded query. -/
theorem C3_search_url :
    (∀ q, search_url ("Coursera".toList) q =
      "https://www.coursera.org/search?query=".toList ++ quote_plus q) ∧
    (∀ q, search_url ("Udemy".toList) q =
      "https://www.udemy.com/courses/search/?q=".toList ++ quote_plus q) ∧
    (∀ q, search_url ("Simpliv".toList) q =
      "https://www.simplivlearning.com/search?query=".toList ++ quote_plus q) ∧
    (∀ q, search_url ("Educative".toList) q =
      "https://www.educative.io/search?query=".toList ++ quote_plus q) ∧
    (∀ q x, x ∈ quote_plus q → x ≠ ' ' ∧ x ≠ '&') ∧
    (∀ p q, p ≠ "Coursera".toList → p ≠ "Udemy".toList →
      p ≠ "Simpliv".toList → p ≠ "Educative".toList →
      search_url p q = "#".toList) ∧
    search_url ("Udemy".toList) ("python for finance".toList) =
      "https://www.udemy.com/courses/search/?q=".toList ++
        quote_plus ("python for finance".toList) := by
  refine ⟨?_, ?_, ?_, ?_, ?_, ?_, ?_⟩
  · intro q
    unfold search_url
    rw [if_pos rfl]
  · intro q
    unfold search_url
    rw [if_neg (by decide), if_pos rfl]
  · intro q
    unfold search_url
    rw [if_neg (by decide), if_neg (by decide), if_pos rfl]
  · intro q
    unfold search_url
    rw [if_neg (by decide), if_neg (by decide), if_neg (by decide), if_pos rfl]
  · exact quote_plus_clean
  · intro p q h1 h2 h3 h4
    unfold search_url
    rw [if_neg h1, if_neg h2, if_neg h3, if_neg h4]
  · unfold search_url
    rw [if_neg (by decide), if_pos rfl]

/-- Witness for C3: the no-space/no-ampersand conjunct at a concrete
encoded character and the sentinel conjunct at a concrete unknown
platform. -/
theorem C3_search_url_w :
    ('+' ≠ ' ' ∧ '+' ≠ '&') ∧
    search_url ("edX".toList) ("python".toList) = "#".toList := by
  constructor
  · exact C3_search_url.2.2.2.2.1 ("a b".toList) '+' (by decide)
  · exact C3_search_url.2.2.2.2.2.1 ("edX".toList) ("python".toList)
      (by decide) (by decide) (by decide) (by decide)

/-! ## C1 and C7: keyword extractor invariants and fallback -/

theorem pick_tokens_spec (ts : List Str) :
    ∀ (picked : List Str) (k : Nat), picked.length < k → picked.Nodup →
    (∀ t ∈ picked, t ∉ STOPWORDS ∧ py_isdigit t = false ∧ 2 < t.length) →
    ((pick_tokens ts picked k).Nodup ∧
     (∀ t ∈ pick_tokens ts picked k,
        t ∉ STOPWORDS ∧ py_isdigit t = false ∧ 2 < t.length) ∧
     (pick_tokens ts picked k).length ≤ k) := by
  induction ts with
  | nil =>
    intro picked k hlen hnd hgood
    exact ⟨hnd, hgood, Nat.le_of_lt hlen⟩
  | cons t ts ih =>
    intro picked k hlen hnd hgood
    rw [pick_tokens]
    by_cases h1 : t ∈ STOPWORDS
    · rw [if_pos h1]
      exact ih picked k hlen hnd hgood
    · rw [if_neg h1]
      by_cases h2 : py_isdigit t = true
      · rw [if_pos h2]
        exact ih picked k hlen hnd hgood
      · rw [if_neg h2]
        by_cases h3 : t.length ≤ 2
        · rw [if_pos h3]
          exact ih picked k hlen hnd hgood
        · rw [if_neg h3]
          have hgt : t ∉ STOPWORDS ∧ py_isdigit t = false ∧ 2 < t.length :=
            ⟨h1, by simpa using h2, by omega⟩
          by_cases h4 : t ∈ picked
          · rw [if_pos h4, if_neg (by omega)]
            exact ih picked k hlen hnd hgood
          · rw [if_neg h4]
            have hnd' : (picked ++ [t]).Nodup := by
              rw [List.nodup_append]
              exact ⟨hnd, List.nodup_singleton t, by
                intro a ha hb
                rw [List.mem_singleton] at hb
                subst hb
                exact h4 ha⟩
            have hgood' : ∀ x ∈ picked ++ [t],
                x ∉ STOPWORDS ∧ py_isdigit x = false ∧ 2 < x.length := by
              intro x hx
              rcases List.mem_append.mp hx with hx | hx
              · exact hgood x hx
              · rw [List.mem_singleton] at hx
                subst hx
                exact hgt
            have hlen' : (picked ++ [t]).length = picked.length + 1 := by simp
            by_cases h5 : k ≤ (picked ++ [t]).length
            · rw [if_pos h5]
              exact ⟨hnd', hgood', by omega⟩
            · rw [if_neg h5]
              exact ih (picked ++ [t]) k (by omega) hnd' hgood'

/-- Counterexample to C1 as stated: on empty input with top_k = 1 the
extractor returns the fallback vocabulary, which has four entries and
contains the two-character token ai. -/
theorem C1_cex :
    ¬ ((extract_keywords [] 1).length ≤ 1 ∧
       (∀ t ∈ extract_keywords [] 1, 2 < t.length)) := by decide

/-- C1 (amended): for every text and top_k of at least 1, the result
of extract_keywords either is exactly the fixed fallback vocabulary,
or contains no duplicates, no stopword, no purely numeric token, no
token of length at most 2, and has length at most top_k. -/
theorem C1_keywords_filtered (text : Str) (k : Nat) (hk : 1 ≤ k) :
    extract_keywords text k = fallback_keywords ∨
    ((extract_keywords text k).Nodup ∧
     (∀ t ∈ extract_keywords text k,
        t ∉ STOPWORDS ∧ py_isdigit t = false ∧ 2 < t.length) ∧
     (extract_keywords text k).length ≤ k) := by
  unfold extract_keywords
  by_cases hp : pick_tokens (tokenize (text.map Char.toLower)) [] k = []
  · rw [if_pos hp]
    exact Or.inl rfl
  · rw [if_neg hp]
    right
    exact pick_tokens_spec _ [] k (by simp only [List.length_nil]; omega)
      List.nodup_nil (by intro t ht; cases ht)

/-- Witness for C1 at a concrete text and top_k. -/
theorem C1_keywords_filtered_w :
    extract_keywords ("machine learning with python".toList) 8 = fallback_keywords ∨
    ((extract_keywords ("machine learning with python".toList) 8).Nodup ∧
     (∀ t ∈ extract_keywords ("machine learning with python".toList) 8,
        t ∉ STOPWORDS ∧ py_isdigit t = false ∧ 2 < t.length) ∧
     (extract_keywords ("machine learning with python".toList) 8).length ≤ 8) :=
  C1_keywords_filtered _ 8 (by decide)

theorem pick_tokens_all_skipped (ts : List Str) :
    ∀ (picked : List Str) (k : Nat),
    (∀ t ∈ ts, t ∈ STOPWORDS ∨ py_isdigit t = true ∨ t.length ≤ 2) →
    pick_tokens ts picked k = picked := by
  induction ts with
  | nil => intro picked k _; rfl
  | cons t ts ih =>
    intro picked k h
    have ht := h t (List.mem_cons_self _ _)
    have hrest : ∀ x ∈ ts, x ∈ STOPWORDS ∨ py_isdigit x = true ∨ x.length ≤ 2 :=
      fun x hx => h x (List.mem_cons_of_mem _ hx)
    rw [pick_tokens]
    by_cases h1 : t ∈ STOPWORDS
    · rw [if_pos h1]
      exact ih picked k hrest
    · rw [if_neg h1]
      rcases ht with ht | ht | ht
      · exact absurd ht h1
      · rw [if_pos ht]
        exact ih picked k hrest
      · by_cases h2 : py_isdigit t = true
        · rw [if_pos h2]
          exact ih picked k hrest
        · rw [if_neg h2, if_pos ht]
          exact ih picked k hrest

/-- C7: when every token of the lower-cased text is a stopword, purely
numeric, or of length at most 2 (in particular for empty input), the
extractor returns exactly the fixed fallback vocabulary. -/
theorem C7_fallback (text : Str) (k : Nat)
    (h : ∀ t ∈ tokenize (text.map Char.toLower),
      t ∈ STOPWORDS ∨ py_isdigit t = true ∨ t.length ≤ 2) :
    extract_keywords text k = fallback_keywords := by
  unfold extract_keywords
  rw [pick_tokens_all_skipped _ _ _ h, if_pos rfl]

/-- Witness for C7 at a concrete all-noise text. -/
theorem C7_fallback_w :
    extract_keywords ("to be 42 or -- 99 the".toList) 8 = fallback_keywords :=
  C7_fallback _ 8 (by decide)

/-! ## C2: the worked example of the intent parser -/

/-- The example input of the specification. -/
def c2_text : Str :=
  ("Weekend crash course on Generative AI for product managers, case studies, no coding, certificate.".toList)

/-- Counterexample to C2 as stated: the token certificate is a member
of the stopword set, so it is excluded from the keyword list of the
parsed example input. -/
theorem C2_cex :
    ("certificate".toList) ∉ (parse_query_noai c2_text).keywords := by decide

/-- C2 (amended): on the example input the keyword list includes
generative, product, managers, case, studies and coding but not
certificate (a stopword), and the extras map duration to short and
certificate to required. -/
theorem C2_example_parse :
    ("generative".toList) ∈ (parse_query_noai c2_text).keywords ∧
    ("product".toList) ∈ (parse_query_noai c2_text).keywords ∧
    ("managers".toList) ∈ (parse_query_noai c2_text).keywords ∧
    ("case".toList) ∈ (parse_query_noai c2_text).keywords ∧
    ("studies".toList) ∈ (parse_query_noai c2_text).keywords ∧
    ("coding".toList) ∈ (parse_query_noai c2_text).keywords ∧
    ("certificate".toList) ∉ (parse_query_noai c2_text).keywords ∧
    py_dict_find (parse_query_noai c2_text).extras ("duration".toList) =
      some ("short".toList) ∧
    py_dict_find (parse_query_noai c2_text).extras ("certificate".toList) =
      some ("required".toList) := by decide

/-! ## C5 and C6: query-variant generation -/

theorem dedup_loop_acc (vs : List Str) :
    ∀ out : List Str, ∃ s, dedup_loop vs out = out ++ s ∧ s.Sublist vs := by
  induction vs with
  | nil =>
    intro out
    exact ⟨[], by simp [dedup_loop], List.Sublist.refl []⟩
  | cons v vs ih =>
    intro out
    by_cases hc : norm_key v ≠ [] ∧ norm_key v ∉ out.map norm_key
    · rw [dedup_loop, if_pos hc]
      obtain ⟨s, hs, hsub⟩ := ih (out ++ [v])
      refine ⟨v :: s, ?_, hsub.cons₂ v⟩
      rw [hs, List.append_assoc]
      rfl
    · rw [dedup_loop, if_neg hc]
      obtain ⟨s, hs, hsub⟩ := ih out
      exact ⟨s, hs, hsub.cons v⟩

theorem dedup_loop_keys_nodup (vs : List Str) :
    ∀ out : List Str, (out.map norm_key).Nodup →
    ((dedup_loop vs out).map norm_key).Nodup := by
  induction vs with
  | nil => intro out h; simpa [dedup_loop] using h
  | cons v vs ih =>
    intro out h
    by_cases hc : norm_key v ≠ [] ∧ norm_key v ∉ out.map norm_key
    · rw [dedup_loop, if_pos hc]
      refine ih (out ++ [v]) ?_
      rw [List.map_append]
      rw [List.nodup_append]
      refine ⟨h, List.nodup_singleton _, ?_⟩
      intro a ha hb
      simp only [List.map_cons, List.map_nil, List.mem_singleton] at hb
      subst hb
      exact hc.2 ha
    · rw [dedup_loop, if_neg hc]
      exact ih out h

theorem dedup_loop_keys_super (vs : List Str) (out : List Str) (x : Str)
    (hx : x ∈ out.map norm_key) : x ∈ (dedup_loop vs out).map norm_key := by
  obtain ⟨s, hs, _⟩ := dedup_loop_acc vs out
  rw [hs, List.map_append]
  exact List.mem_append_left _ hx

theorem dedup_loop_complete (vs : List Str) :
    ∀ (out : List Str) (c : Str), c ∈ vs → norm_key c ≠ [] →
    norm_key c ∈ (dedup_loop vs out).map norm_key := by
  induction vs with
  | nil => intro out c hc; cases hc
  | cons v vs ih =>
    intro out c hc hne
    rcases List.mem_cons.mp hc with rfl | hc
    · by_cases hcond : norm_key c ≠ [] ∧ norm_key c ∉ out.map norm_key
      · rw [dedup_loop, if_pos hcond]
        refine dedup_loop_keys_super vs (out ++ [c]) _ ?_
        rw [List.map_append]
        exact List.mem_append_right _ (by simp)
      · rw [dedup_loop, if_neg hcond]
        push_neg at hcond
        exact dedup_loop_keys_super vs out _ (hcond hne)
    · by_cases hcond : norm_key v ≠ [] ∧ norm_key v ∉ out.map norm_key
      · rw [dedup_loop, if_pos hcond]
        exact ih (out ++ [v]) c hc hne
      · rw [dedup_loop, if_neg hcond]
        exact ih out c hc hne

theorem dedup_loop_first (vs : List Str) :
    ∀ out : List Str, (∀ r ∈ out, norm_key r ≠ []) →
    ∀ r ∈ dedup_loop vs out,
      norm_key r ≠ [] ∧
      (r ∈ out ∨
        (((vs.filter (fun c => norm_key c == norm_key r)).head? = some r) ∧
         norm_key r ∉ out.map norm_key)) := by
  induction vs with
  | nil =>
    intro out hout r hr
    rw [dedup_loop] at hr
    exact ⟨hout r hr, Or.inl hr⟩
  | cons v vs ih =>
    intro out hout r hr
    by_cases hc : norm_key v ≠ [] ∧ norm_key v ∉ out.map norm_key
    · rw [dedup_loop, if_pos hc] at hr
      have hout' : ∀ x ∈ out ++ [v], norm_key x ≠ [] := by
        intro x hx
        rcases List.mem_append.mp hx with hx | hx
        · exact hout x hx
        · rw [List.mem_singleton] at hx
          subst hx
          exact hc.1
      obtain ⟨hne, hcase⟩ := ih (out ++ [v]) hout' r hr
      refine ⟨hne, ?_⟩
      rcases hcase with hcase | ⟨hhead, hnotin⟩
      · rcases List.mem_append.mp hcase with hcase | hcase
        · exact Or.inl hcase
        · rw [List.mem_singleton] at hcase
          subst hcase
          refine Or.inr ⟨?_, hc.2⟩
          rw [List.filter_cons, if_pos (by simp)]
          rfl
      · have hvr : norm_key v ≠ norm_key r := by
          intro he
          apply hnotin
          rw [List.map_append]
          exact List.mem_append_right _ (by simp [he])
        refine Or.inr ⟨?_, fun hin => hnotin (by rw [List.map_append]; exact List.mem_append_left _ hin)⟩
        rw [List.filter_cons, if_neg (by simpa using hvr)]
        exact hhead
    · rw [dedup_loop, if_neg hc] at hr
      obtain ⟨hne, hcase⟩ := ih out hout r hr
      refine ⟨hne, ?_⟩
      rcases hcase with hcase | ⟨hhead, hnotin⟩
      · exact Or.inl hcase
      · push_neg at hc
        have hvr : norm_key v ≠ norm_key r := by
          intro he
          by_cases hv : norm_key v = []
          · exact hne (he.symm.trans hv)
          · exact hnotin (he ▸ hc hv)
        refine Or.inr ⟨?_, hnotin⟩
        rw [List.filter_cons, if_neg (by simpa using hvr)]
        exact hhead

theorem take_eq_self_of_le {A : Type} (l : List A) (n : Nat) (h : l.length ≤ n) :
    l.take n = l := by
  induction l generalizing n with
  | nil => simp
  | cons a l ih =>
    match n with
    | 0 => simp at h
    | m + 1 =>
      rw [List.take_succ_cons, ih m (by simpa using h)]

theorem variant_candidates_len (pi : ParsedIntent) (raw : Str) :
    (variant_candidates pi raw).length ≤ 4 := by
  obtain ⟨topic, subtopics, skills, level, modality, extras, keywords⟩ := pi
  unfold variant_candidates
  cases level <;> dsimp only [] <;> split_ifs <;> simp

theorem make_query_variants_eq (pi : ParsedIntent) (raw : Str) :
    make_query_variants pi raw = dedup_loop (variant_candidates pi raw) [] := by
  unfold make_query_variants
  obtain ⟨s, hs, hsub⟩ := dedup_loop_acc (variant_candidates pi raw) []
  rw [hs, List.nil_append]
  exact take_eq_self_of_le _ 4
    (Nat.le_trans hsub.length_le (variant_candidates_len pi raw))

/-- C5: make_query_variants returns at most 4 entries, with pairwise
distinct trimmed case-insensitive normal forms, in candidate
generation order (a sublist of the candidate list); every candidate
with a nonempty normal form is represented, and each returned entry
is the first candidate carrying its normal form. -/
theorem C5_variant_props (pi : ParsedIntent) (raw : Str) :
    (make_query_variants pi raw).length ≤ 4 ∧
    ((make_query_variants pi raw).map norm_key).Nodup ∧
    (make_query_variants pi raw).Sublist (variant_candidates pi raw) ∧
    (∀ c ∈ variant_candidates pi raw, norm_key c ≠ [] →
      norm_key c ∈ (make_query_variants pi raw).map norm_key) ∧
    (∀ r ∈ make_query_variants pi raw,
      ((variant_candidates pi raw).filter
        (fun c => norm_key c == norm_key r)).head? = some r) := by
  obtain ⟨s, hs, hsub⟩ := dedup_loop_acc (variant_candidates pi raw) []
  rw [List.nil_append] at hs
  refine ⟨?_, ?_, ?_, ?_, ?_⟩
  · rw [make_query_variants_eq, hs]
    exact Nat.le_trans hsub.length_le (variant_candidates_len pi raw)
  · rw [make_query_variants_eq]
    exact dedup_loop_keys_nodup _ [] (by simp)
  · rw [make_query_variants_eq, hs]
    exact hsub
  · intro c hc hne
    rw [make_query_variants_eq]
    exact dedup_loop_complete _ [] c hc hne
  · intro r hr
    rw [make_query_variants_eq] at hr
    have h := dedup_loop_first (variant_candidates pi raw) [] (by simp) r hr
    rcases h.2 with hmem | hgood
    · cases hmem
    · exact hgood.1

/-- Witness for C5: the representation and first-occurrence conjuncts
applied at a concrete intent, candidate and returned entry. -/
theorem C5_variant_props_w :
    norm_key (qjoin (variant_base_kw
        { topic := [], subtopics := [], skills := [], level := none,
          modality := none, extras := [], keywords := ["data".toList] }
        ("ml data".toList))) ∈
      (make_query_variants
        { topic := [], subtopics := [], skills := [], level := none,
          modality := none, extras := [], keywords := ["data".toList] }
        ("ml data".toList)).map norm_key ∧
    ((variant_candidates
        { topic := [], subtopics := [], skills := [], level := none,
          modality := none, extras := [], keywords := ["data".toList] }
        ("ml data".toList)).filter
      (fun c => norm_key c == norm_key ("data".toList))).head? =
      some ("data".toList) := by
  constructor
  · exact (C5_variant_props _ _).2.2.2.1 _ (by decide) (by decide)
  · exact (C5_variant_props _ _).2.2.2.2 ("data".toList) (by decide)

theorem mem_dropWhile_of_not {p : Char → Bool} :
    ∀ (l : Str) (c : Char), c ∈ l → p c = false → c ∈ l.dropWhile p := by
  intro l
  induction l with
  | nil => intro c hc; cases hc
  | cons a l ih =>
    intro c hc hpc
    by_cases hpa : p a = true
    · rw [List.dropWhile_cons_of_pos hpa]
      rcases List.mem_cons.mp hc with rfl | hc
      · rw [hpa] at hpc; cases hpc
      · exact ih c hc hpc
    · rw [List.dropWhile_cons_of_neg hpa]
      exact hc

theorem mem_py_strip (l : Str) (c : Char) (hc : c ∈ l)
    (hcs : is_py_space c = false) : c ∈ py_strip l := by
  unfold py_strip drop_trailing
  rw [List.mem_reverse]
  apply mem_dropWhile_of_not _ _ _ hcs
  rw [List.mem_reverse]
  exact mem_dropWhile_of_not _ _ hc hcs

theorem mem_join_space :
    ∀ (parts : List Str) (kw : Str), kw ∈ parts →
    ∀ c ∈ kw, c ∈ join_space parts := by
  intro parts
  induction parts with
  | nil => intro kw hkw; cases hkw
  | cons x xs ih =>
    intro kw hkw c hc
    match xs with
    | [] =>
      rcases List.mem_cons.mp hkw with rfl | hkw
      · exact hc
      · cases hkw
    | y :: ys =>
      show c ∈ x ++ ' ' :: join_space (y :: ys)
      rcases List.mem_cons.mp hkw with rfl | hkw
      · exact List.mem_append_left _ hc
      · exact List.mem_append_right _
          (List.mem_cons_of_mem _ (ih kw hkw c hc))

theorem mem_qjoin (parts : List Str) (kw : Str) (c : Char)
    (hkw : kw ∈ parts) (hc : c ∈ kw) (hcs : is_py_space c = false) :
    c ∈ qjoin parts := by
  unfold qjoin
  apply mem_py_strip _ _ _ hcs
  apply mem_join_space _ kw _ c hc
  rw [List.mem_filter]
  exact ⟨hkw, by simp; exact List.ne_nil_of_mem hc⟩

/-- Counterexample to C6 as stated: an intent whose keyword list is
the nonempty list holding one empty string produces no variants on
empty raw text. -/
theorem C6_cex :
    ({ topic := [], subtopics := [], skills := [], level := none,
       modality := none, extras := [],
       keywords := [([] : Str)] } : ParsedIntent).keywords ≠ [] ∧
    make_query_variants
      { topic := [], subtopics := [], skills := [], level := none,
        modality := none, extras := [], keywords := [([] : Str)] } [] = [] := by
  decide

/-- C6 (amended): make_query_variants returns at least one entry
whenever some keyword of the intent contains a non-whitespace
character (as every keyword produced by extract_keywords does). -/
theorem C6_nonempty (pi : ParsedIntent) (raw : Str)
    (h : ∃ kw ∈ pi.keywords, ∃ c ∈ kw, is_py_space c = false) :
    make_query_variants pi raw ≠ [] := by
  obtain ⟨kw, hkw, c, hc, hcs⟩ := h
  have hkne : pi.keywords ≠ [] := by
    intro he
    rw [he] at hkw
    cases hkw
  have hbase : variant_base_kw pi raw = pi.keywords := by
    unfold variant_base_kw
    rw [if_neg hkne]
  have hcq : c ∈ qjoin (variant_base_kw pi raw) := by
    rw [hbase]
    exact mem_qjoin _ kw c hkw hc hcs
  have hkey : norm_key (qjoin (variant_base_kw pi raw)) ≠ [] := by
    apply List.ne_nil_of_mem
    show c.toLower ∈ (py_strip (qjoin (variant_base_kw pi raw))).map Char.toLower
    apply List.mem_map_of_mem
    exact mem_py_strip _ _ hcq hcs
  have hcand : qjoin (variant_base_kw pi raw) ∈ variant_candidates pi raw := by
    unfold variant_candidates
    exact List.mem_append_left _
      (List.mem_append_left _
        (List.mem_append_right _ (List.mem_singleton_self _)))
  have hmem := dedup_loop_complete (variant_candidates pi raw) [] _ hcand hkey
  rw [make_query_variants_eq]
  intro he
  rw [he] at hmem
  cases hmem

/-- Witness for C6 at a concrete intent with a real keyword. -/
theorem C6_nonempty_w :
    make_query_variants
      { topic := [], subtopics := [], skills := [], level := none,
        modality := none, extras := [], keywords := ["ml".toList] } [] ≠ [] :=
  C6_nonempty _ [] ⟨"ml".toList, by decide, 'm', by decide, by decide⟩

/-! ## C9: the override merge does not mutate the auto-detected intent -/

theorem getD_append_lt {A : Type} :
    ∀ (l : List A) (x d : A) (i : Nat), i < l.length →
    (l ++ [x]).getD i d = l.getD i d := by
  intro l
  induction l with
  | nil => intro x d i hi; cases hi
  | cons a l ih =>
    intro x d i hi
    match i with
    | 0 => rfl
    | m + 1 =>
      rw [List.cons_append, List.getD_cons_succ, List.getD_cons_succ]
      exact ih x d m (by simpa using hi)

theorem getD_set_ne {A : Type} :
    ∀ (l : List A) (i j : Nat) (a d : A), i ≠ j →
    (l.set i a).getD j d = l.getD j d := by
  intro l
  induction l with
  | nil => intro i j a d _; rfl
  | cons b l ih =>
    intro i j a d hij
    match i, j with
    | 0, 0 => exact absurd rfl hij
    | 0, m + 1 => rfl
    | n + 1, 0 => rfl
    | n + 1, m + 1 =>
      rw [List.set_cons_succ, List.getD_cons_succ, List.getD_cons_succ]
      exact ih n m a d (by omega)

theorem stage_extras_strlists (h : Heap) (r : Nat) (p : Prefs) :
    (stage_extras h r p).strlists = h.strlists := by
  unfold stage_extras Heap.setDict
  split_ifs <;> rfl

theorem stage_extras_dicts_len (h : Heap) (r : Nat) (p : Prefs) :
    (stage_extras h r p).dicts.length = h.dicts.length := by
  unfold stage_extras Heap.setDict
  split_ifs <;> simp

theorem stage_extras_getDict_ne (h : Heap) (r : Nat) (p : Prefs) (j : Nat)
    (hj : j ≠ r) : (stage_extras h r p).getDict j = h.getDict j := by
  have hset : ∀ (hh : Heap) (d : List (Str × Str)),
      (hh.setDict r d).getDict j = hh.getDict j := by
    intro hh d
    unfold Heap.setDict Heap.getDict
    exact getD_set_ne _ r j _ _ (fun he => hj he.symm)
  unfold stage_extras
  split_ifs <;> simp [hset]

theorem stage_kw_dicts (h : Heap) (kwRef eR : Nat) (m : Str) :
    (stage_kw h kwRef eR m).dicts = h.dicts := by
  unfold stage_kw Heap.setList
  split_ifs <;> rfl

theorem stage_kw_strlists_len (h : Heap) (kwRef eR : Nat) (m : Str) :
    (stage_kw h kwRef eR m).strlists.length = h.strlists.length := by
  unfold stage_kw Heap.setList
  split_ifs <;> simp

theorem stage_kw_getList_ne (h : Heap) (kwRef eR : Nat) (m : Str) (j : Nat)
    (hj : j ≠ kwRef) : (stage_kw h kwRef eR m).getList j = h.getList j := by
  have hset : ∀ (hh : Heap) (l : List Str),
      (hh.setList kwRef l).getList j = hh.getList j := by
    intro hh l
    unfold Heap.setList Heap.getList
    exact getD_set_ne _ kwRef j _ _ (fun he => hj he.symm)
  unfold stage_kw
  split_ifs <;> simp [hset]

theorem merge_after_extras_strlists (h0 : Heap) (parsed : ParsedIntentRef)
    (p : Prefs) : (merge_after_extras h0 parsed p).strlists = h0.strlists := by
  unfold merge_after_extras
  rw [stage_extras_strlists]
  rfl

theorem merge_after_extras_getDict (h0 : Heap) (parsed : ParsedIntentRef)
    (p : Prefs) (j : Nat) (hj : j < h0.dicts.length) :
    (merge_after_extras h0 parsed p).getDict j = h0.getDict j := by
  unfold merge_after_extras
  rw [stage_extras_getDict_ne _ _ _ _ (Nat.ne_of_lt hj)]
  unfold Heap.allocDict Heap.getDict
  exact getD_append_lt _ _ _ _ hj

theorem merge_after_kw_dicts (h0 : Heap) (parsed : ParsedIntentRef) (p : Prefs) :
    (merge_after_kw h0 parsed p).dicts = (merge_after_extras h0 parsed p).dicts := by
  unfold merge_after_kw
  rw [stage_kw_dicts]
  rfl

theorem merge_after_kw_strlists_len (h0 : Heap) (parsed : ParsedIntentRef)
    (p : Prefs) :
    (merge_after_kw h0 parsed p).strlists.length = h0.strlists.length + 1 := by
  unfold merge_after_kw
  rw [stage_kw_strlists_len]
  show ((merge_after_extras h0 parsed p).strlists ++ [_]).length = _
  rw [List.length_append, merge_after_extras_strlists]
  rfl

theorem merge_after_kw_getList (h0 : Heap) (parsed : ParsedIntentRef) (p : Prefs)
    (j : Nat) (hj : j < h0.strlists.length) :
    (merge_after_kw h0 parsed p).getList j = h0.getList j := by
  unfold merge_after_kw
  rw [stage_kw_getList_ne _ _ _ _ _
    (by rw [merge_after_extras_strlists]; exact Nat.ne_of_lt hj)]
  show Heap.getList _ j = _
  unfold Heap.allocList Heap.getList
  show ((merge_after_extras h0 parsed p).strlists ++ [_]).getD j [] = _
  rw [getD_append_lt _ _ _ _ (by rw [merge_after_extras_strlists]; exact hj)]
  rw [merge_after_extras_strlists]

theorem merge_final_getDict (h0 : Heap) (parsed : ParsedIntentRef) (p : Prefs)
    (j : Nat) (hj : j < h0.dicts.length) :
    (merge_final_heap h0 parsed p).getDict j = h0.getDict j := by
  unfold merge_final_heap
  show Heap.getDict _ j = _
  have hd : ((merge_after_kw h0 parsed p).allocList []).1.dicts =
      (merge_after_kw h0 parsed p).dicts := rfl
  unfold Heap.getDict
  rw [hd, merge_after_kw_dicts]
  exact merge_after_extras_getDict h0 parsed p j hj

theorem merge_final_getList (h0 : Heap) (parsed : ParsedIntentRef) (p : Prefs)
    (j : Nat) (hj : j < h0.strlists.length) :
    (merge_final_heap h0 parsed p).getList j = h0.getList j := by
  unfold merge_final_heap
  show Heap.getList _ j = _
  unfold Heap.allocList Heap.getList
  show ((merge_after_kw h0 parsed p).strlists ++ [_]).getD j [] = _
  rw [getD_append_lt _ _ _ _ (by rw [merge_after_kw_strlists_len]; omega)]
  exact merge_after_kw_getList h0 parsed p j hj

/-- C9: given valid references of the auto-detected intent, the
override-merge block leaves the heap cells of all four of its
list- and dict-valued fields unchanged, and the effective intent it
produces is a fresh record: same topic, level and skills reference,
resolved modality, but new extras and keyword cells distinct from the
auto-detected ones. -/
theorem C9_no_mutation (h0 : Heap) (parsed : ParsedIntentRef) (p : Prefs)
    (ut : Str)
    (hd : parsed.extrasRef < h0.dicts.length)
    (hk : parsed.keywordsRef < h0.strlists.length)
    (hs : parsed.skillsRef < h0.strlists.length)
    (hsub : parsed.subtopicsRef < h0.strlists.length) :
    (apply_sidebar_prefs h0 parsed p ut).1.getDict parsed.extrasRef =
      h0.getDict parsed.extrasRef ∧
    (apply_sidebar_prefs h0 parsed p ut).1.getList parsed.keywordsRef =
      h0.getList parsed.keywordsRef ∧
    (apply_sidebar_prefs h0 parsed p ut).1.getList parsed.skillsRef =
      h0.getList parsed.skillsRef ∧
    (apply_sidebar_prefs h0 parsed p ut).1.getList parsed.subtopicsRef =
      h0.getList parsed.subtopicsRef ∧
    (apply_sidebar_prefs h0 parsed p ut).2.1.extrasRef ≠ parsed.extrasRef ∧
    (apply_sidebar_prefs h0 parsed p ut).2.1.keywordsRef ≠ parsed.keywordsRef ∧
    (apply_sidebar_prefs h0 parsed p ut).2.1.subtopicsRef ≠ parsed.subtopicsRef ∧
    (apply_sidebar_prefs h0 parsed p ut).2.1.topic = parsed.topic ∧
    (apply_sidebar_prefs h0 parsed p ut).2.1.level = parsed.level ∧
    (apply_sidebar_prefs h0 parsed p ut).2.1.skillsRef = parsed.skillsRef ∧
    (apply_sidebar_prefs h0 parsed p ut).2.1.modality =
      some (merge_modality parsed p) := by
  refine ⟨?_, ?_, ?_, ?_, ?_, ?_, ?_, rfl, rfl, rfl, rfl⟩
  · exact merge_final_getDict h0 parsed p _ hd
  · exact merge_final_getList h0 parsed p _ hk
  · exact merge_final_getList h0 parsed p _ hs
  · exact merge_final_getList h0 parsed p _ hsub
  · exact Nat.ne_of_gt hd
  · show (merge_after_extras h0 parsed p).strlists.length ≠ parsed.keywordsRef
    rw [merge_after_extras_strlists]
    exact Nat.ne_of_gt hk
  · show (merge_after_kw h0 parsed p).strlists.length ≠ parsed.subtopicsRef
    rw [merge_after_kw_strlists_len]
    omega

/-- Witness for C9 at a concrete heap, intent and preference set. -/
theorem C9_no_mutation_w :
    (apply_sidebar_prefs
      { dicts := [[(("certificate".toList), ("required".toList))]],
        strlists := [[], ["python".toList], ["ai".toList, "data".toList]] }
      { topic := "Ai".toList, subtopicsRef := 0, skillsRef := 1, level := none,
        modality := none, extrasRef := 0, keywordsRef := 2 }
      { training_mode := "Online Courses".toList, level_pref := "Any".toList,
        must_have_cert := false, short_format := false, free_only := false }
      ("ml".toList)).1.getDict 0 =
      ({ dicts := [[(("certificate".toList), ("required".toList))]],
         strlists := [[], ["python".toList], ["ai".toList, "data".toList]] } : Heap).getDict 0 ∧
    (apply_sidebar_prefs
      { dicts := [[(("certificate".toList), ("required".toList))]],
        strlists := [[], ["python".toList], ["ai".toList, "data".toList]] }
      { topic := "Ai".toList, subtopicsRef := 0, skillsRef := 1, level := none,
        modality := none, extrasRef := 0, keywordsRef := 2 }
      { training_mode := "Online Courses".toList, level_pref := "Any".toList,
        must_have_cert := false, short_format := false, free_only := false }
      ("ml".toList)).2.1.keywordsRef ≠ 2 :=
  ⟨(C9_no_mutation _ _ _ _ (by decide) (by decide) (by decide) (by decide)).1,
   (C9_no_mutation _ _ _ _ (by decide) (by decide) (by decide) (by decide)).2.2.2.2.2.1⟩
